import Mathlib

/-!
Shallow embedding of the t-shirt/tag stock application (`src/app.py`) and
proofs about its spreadsheet-import pipeline, snapshot store and tag ledger.

Modelling conventions:
* Python strings are Lean `String`s; Python's substring test `tok in s` is
  `pcontains tok s`, an executable containment test on `List Char`.
* Unicode NFC normalization (`unicodedata.normalize('NFC', s)`) is modelled as
  the identity: all inputs considered here are already in NFC.
* Spreadsheet cell values (the output of the excluded pandas reader) are the
  inductive `Cell`: an absent value (NaN), a string, an integral float, or a
  native date value.
* Python machine floats are modelled only at the integral values the code
  stores (`Cell.cnum`); `int(float(str))` on decimal literals is modelled by
  `parseFloatTrunc` (truncation toward zero), which covers the shapes that
  the importer actually meets.  `int` counts are Lean `Int` (Python ints are
  unbounded).
* `st.session_state` plus the three JSON files are the explicit `AppState`;
  "saving" a collection sets the corresponding `saved*` field.
* Inventory grids are total maps `Variant → Size → Int` over the fixed
  catalog, matching the zero-filled-grid invariant of the stored records.
-/

namespace TshirtStock

/-! ### Character/string utilities (Python `in`, `strip`, `os.path.basename`) -/

/-- Prefix test `chStarts n h`: the char list `n` is a prefix of `h`. -/
def chStarts : List Char → List Char → Bool
  | [], _ => true
  | _ :: _, [] => false
  | a :: as, b :: bs => a == b && chStarts as bs

/-- Containment test `chContains n h`: the char list `n` occurs contiguously inside `h`
(Python's `n in h` on strings). -/
def chContains (needle : List Char) : List Char → Bool
  | [] => needle.isEmpty
  | h :: t => chStarts needle (h :: t) || chContains needle t

/-- Python's substring test `needle in hay`. -/
def pcontains (needle hay : String) : Bool :=
  chContains needle.toList hay.toList

/-- The whitespace characters stripped by Python's `str.strip()` that can
occur in this pipeline's inputs. -/
def pyIsSpace (c : Char) : Bool :=
  c == ' ' || c == '\t' || c == '\n' || c == '\r' || c == '\x0b' ||
    c == '\x0c' || c == ' ' || c == '　'

/-- Python `str.strip()`. -/
def pstrip (s : String) : String :=
  ⟨((s.toList.dropWhile pyIsSpace).reverse.dropWhile pyIsSpace).reverse⟩

/-- Python `os.path.basename` (POSIX): the part after the last `/`. -/
def basename (s : String) : String :=
  ⟨(s.toList.reverse.takeWhile (fun c => c != '/')).reverse⟩

/-- The full-width→ASCII parenthesis canonicalization applied to filenames
(`base.replace('（', '(').replace('）', ')')`). -/
def replParen (s : String) : String :=
  ⟨s.toList.map (fun c => if c = '（' then '(' else if c = '）' then ')' else c)⟩

/-- One step of the 94-codepoint full-width→ASCII block shift
(`str.maketrans({chr(0xFF01+i): chr(0x21+i) for i in range(94)})`). -/
def fwChar (c : Char) : Char :=
  if 0xFF01 ≤ c.toNat ∧ c.toNat ≤ 0xFF5E then Char.ofNat (c.toNat - 0xFF01 + 0x21)
  else c

/-! ### Canonical catalog -/

/-- The four catalog variants (`TSHIRT_TYPES`): color (white/black) × Zen-Pro
mark (present/absent). -/
inductive Variant where
  | whiteNasi
  | whiteAri
  | blackNasi
  | blackAri
deriving DecidableEq, Repr

/-- The catalog key string of a variant, as listed in `TSHIRT_TYPES`. -/
def Variant.toName : Variant → String
  | .whiteNasi => "パンクラス×禅道会コラボTシャツ(ホワイト)ゼンプロマークなし"
  | .whiteAri => "パンクラス×禅道会コラボTシャツ(ホワイト)ゼンプロマークあり"
  | .blackNasi => "パンクラス×禅道会コラボTシャツ(ブラック)ゼンプロマークなし"
  | .blackAri => "パンクラス×禅道会コラボTシャツ(ブラック)ゼンプロマークあり"

/-- The ordered variant catalog (`TSHIRT_TYPES`). -/
def TSHIRT_TYPES : List Variant :=
  [.whiteNasi, .blackNasi, .whiteAri, .blackAri]

/-- The seven catalog sizes (`SIZES`). -/
inductive Size where
  | s150
  | s160
  | sS
  | sM
  | sL
  | sXL
  | sXXL
deriving DecidableEq, Repr

/-- The catalog label of a size, as listed in `SIZES`. -/
def Size.toLabel : Size → String
  | .s150 => "150cm"
  | .s160 => "160cm"
  | .sS => "S"
  | .sM => "M"
  | .sL => "L"
  | .sXL => "XL"
  | .sXXL => "XXL"

/-- The ordered size catalog (`SIZES`). -/
def SIZES : List Size := [.s150, .s160, .sS, .sM, .sL, .sXL, .sXXL]

/-! ### Size/variant normalizer (`InventoryManager`) -/

/-- The canonicalized filename the variant detector inspects:
`normalize_str(os.path.basename(filename))` with full-width parens folded. -/
def fnBase (filename : String) : String :=
  replParen (basename filename)

/-- Flag `is_white = '白' in base or 'ホワイト' in base`. -/
def is_white (base : String) : Bool :=
  pcontains "白" base || pcontains "ホワイト" base

/-- Flag `is_black = '黒' in base or 'ブラック' in base`. -/
def is_black (base : String) : Bool :=
  pcontains "黒" base || pcontains "ブラック" base

/-- Flag `is_ari = 'あり' in base` (mark present). -/
def is_ari (base : String) : Bool :=
  pcontains "あり" base

/-- Flag `is_nasi = 'なし' in base` (mark absent). -/
def is_nasi (base : String) : Bool :=
  pcontains "なし" base

/-- Embedding of `InventoryManager.determine_type_from_filename`: resolve a catalog variant
from a filename, `none` when unrecognized. -/
def determine_type_from_filename (filename : String) : Option Variant :=
  if is_white (fnBase filename) && is_nasi (fnBase filename) then some .whiteNasi
  else if is_white (fnBase filename) && is_ari (fnBase filename) then some .whiteAri
  else if is_black (fnBase filename) && is_nasi (fnBase filename) then some .blackNasi
  else if is_black (fnBase filename) && is_ari (fnBase filename) then some .blackAri
  else none

/-- The canonicalized text the size normalizer inspects: NFC, `strip()`, then
the 94-codepoint full-width→ASCII shift. -/
def canonSizeText (v : String) : String :=
  ⟨(pstrip v).toList.map fwChar⟩

/-- Embedding of `InventoryManager.normalize_size`: fuzzy-match a cell value to a catalog
size, `none` when unrecognized.  The argument is the stringified cell
(`str(cell_value)`), or `none` for Python `None`. -/
def normalize_size (cell_value : Option String) : Option Size :=
  match cell_value with
  | none => none
  | some cv =>
    if pcontains "150" (canonSizeText cv) then some .s150
    else if pcontains "160" (canonSizeText cv) then some .s160
    else if pcontains "XXL" (canonSizeText cv) || pcontains "3L" (canonSizeText cv) then
      some .sXXL
    else if pcontains "XL" (canonSizeText cv) || pcontains "LL" (canonSizeText cv) then
      some .sXL
    else if pcontains "L" (canonSizeText cv) then some .sL
    else if pcontains "M" (canonSizeText cv) then some .sM
    else if pcontains "S" (canonSizeText cv) then some .sS
    else none

example : determine_type_from_filename "在庫_白_マークなし.xlsx" = some .whiteNasi := by decide
example : determine_type_from_filename "在庫_黒_マークあり.xlsx" = some .blackAri := by decide
example : determine_type_from_filename "zaiko.xlsx" = none := by decide
example : normalize_size (some "ＸＬ") = some .sXL := by decide
example : normalize_size (some " 150cm ") = some .s150 := by decide
example : normalize_size (some "ＬＬ(大)") = some .sXL := by decide
example : normalize_size (some "合計") = none := by decide

/-! ### Spreadsheet cells and coercions (`import_matrix_excel_fast` helpers) -/

/-- A raw spreadsheet cell value as the pandas reader delivers it: absent
(NaN), a string, an integral float, or a native date value. -/
inductive Cell where
  | absent
  | cstr (s : String)
  | cnum (n : Int)
  | cdate (y m d : Nat)
deriving DecidableEq, Repr

/-- Zero-pad a number to two digits, as `strftime('%m')`/`strftime('%d')` do. -/
def pad2 (n : Nat) : String :=
  if n < 10 then "0" ++ toString n else toString n

/-- Date formatting `YYYY-MM-DD` (`strftime('%Y-%m-%d')`) for the 4-digit years
this data uses. -/
def fmtDate (y m d : Nat) : String :=
  toString y ++ "-" ++ pad2 m ++ "-" ++ pad2 d

/-- Python `str(value)` on a cell: `str(nan) = "nan"`, floats print with a
trailing `.0`, datetimes print as `YYYY-MM-DD HH:MM:SS`. -/
def cellToStr : Cell → String
  | .absent => "nan"
  | .cstr s => s
  | .cnum n => toString n ++ ".0"
  | .cdate y m d => fmtDate y m d ++ " 00:00:00"

/-- Value of an all-digit char list, `none` when a non-digit occurs. -/
def digitsVal : List Char → Option Nat
  | [] => some 0
  | c :: t =>
    if c.isDigit then
      (digitsVal t).map (fun v => (c.toNat - '0'.toNat) * 10 ^ t.length + v)
    else none

/-- Leap-year rule used by the calendar validation of `pd.to_datetime`. -/
def isLeap (y : Nat) : Bool :=
  (y % 4 == 0 && y % 100 != 0) || y % 400 == 0

/-- Days in a month, for the calendar validation of `pd.to_datetime`. -/
def daysInMonth (y m : Nat) : Nat :=
  if m == 2 then (if isLeap y then 29 else 28)
  else if m == 4 || m == 6 || m == 9 || m == 11 then 30
  else 31

/-- Split a char list on a separator character (`re`-style fields). -/
def chSplit (sep : Char) (l : List Char) : List (List Char) :=
  match l with
  | [] => [[]]
  | c :: t =>
    let r := chSplit sep t
    if c == sep then [] :: r
    else match r with
      | [] => [[c]]
      | f :: rest => (c :: f) :: rest

/-- The string branch of `InventoryManager.parse_excel_date`: after
`strip()` and `/`→`-`, require `^\d{4}-\d{1,2}-\d{1,2}$`, then let
`pd.to_datetime` validate the calendar date and reformat it zero-padded. -/
def parseDateString (s : String) : Option String :=
  let cs := (pstrip s).toList.map (fun c => if c = '/' then '-' else c)
  match chSplit '-' cs with
  | [ys, ms, ds] =>
    if ys.length == 4 && (ms.length == 1 || ms.length == 2) &&
        (ds.length == 1 || ds.length == 2) then
      match digitsVal ys, digitsVal ms, digitsVal ds with
      | some y, some m, some d =>
        if 1 ≤ m ∧ m ≤ 12 ∧ 1 ≤ d ∧ d ≤ daysInMonth y m then some (fmtDate y m d)
        else none
      | _, _, _ => none
    else none
  | _ => none

/-- Embedding of `InventoryManager.parse_excel_date`: a native datetime formats directly;
NaN is rejected; anything else goes through the string pattern check. -/
def parse_excel_date (value : Cell) : Option String :=
  match value with
  | .absent => none
  | .cdate y m d => some (fmtDate y m d)
  | v => parseDateString (cellToStr v)

/-- Model of `int(float(s))` on a stripped decimal literal: optional sign,
digits with at most one dot, truncated toward zero.  `none` <=> Python's
`float(s)` raises `ValueError` on the shapes this pipeline meets. -/
def parseFloatTrunc (s : String) : Option Int :=
  let cs := (pstrip s).toList
  let signed : Int × List Char :=
    match cs with
    | '-' :: t => (-1, t)
    | '+' :: t => (1, t)
    | t => (1, t)
  match chSplit '.' signed.2 with
  | [a] =>
    if a.isEmpty then none
    else (digitsVal a).map (fun v => signed.1 * (v : Int))
  | [a, b] =>
    if a.isEmpty && b.isEmpty then none
    else match digitsVal a, digitsVal b with
      | some v, some _ => some (signed.1 * (v : Int))
      | _, _ => none
  | _ => none

/-- The `try: int(float(val)) except: 0` branch of the data-row walk:
`float()` succeeds on integral floats and decimal-literal strings, and raises
(hence 0 after the `except`) on datetimes and non-numeric strings. -/
def tryIntFloat : Cell → Option Int
  | .absent => none
  | .cstr s => parseFloatTrunc s
  | .cnum n => some n
  | .cdate _ _ _ => none

/-- Count coercion for one mapped date cell:
`int(float(val)) if pd.notnull(val) and str(val).strip() != '' else 0`,
with any exception caught as 0. -/
def coerceCount (val : Cell) : Int :=
  match val with
  | .absent => 0
  | v =>
    if pstrip (cellToStr v) = "" then 0
    else (tryIntFloat v).getD 0

example : coerceCount (.cstr "12.0") = 12 := by decide
example : coerceCount (.cstr "abc") = 0 := by decide
example : coerceCount (.cstr "") = 0 := by decide
example : coerceCount .absent = 0 := by decide
example : coerceCount (.cnum (-5)) = -5 := by decide
example : parse_excel_date (.cstr "2025/12/1") = some "2025-12-01" := by decide
example : parse_excel_date (.cstr "2025-12-01") = some "2025-12-01" := by decide
example : parse_excel_date (.cstr "Dec 1") = none := by decide
example : parse_excel_date (.cdate 2025 12 14) = some "2025-12-14" := by decide
example : parse_excel_date (.cnum 45000) = none := by decide

/-! ### Matrix sheet parser (`InventoryManager.import_matrix_excel_fast`) -/

/-- A raw sheet: the 2-D grid of cell values the (excluded) pandas reader
yields, row-major. -/
abbrev Grid := List (List Cell)

/-- The header-row test: `any('商品名' in s for s in row.astype(str).values)`. -/
def rowHasMarker (row : List Cell) : Bool :=
  row.any (fun c => pcontains "商品名" (cellToStr c))

/-- The header search of `import_matrix_excel_fast`: the index of the first
row containing a `商品名` ("product name") marker cell, over **all** rows of
the frame (`for idx, row in df.iterrows(): ... break`). -/
def findHeaderIdx : Grid → Option Nat
  | [] => none
  | row :: rest =>
    if rowHasMarker row then some 0
    else (findHeaderIdx rest).map (· + 1)

/-- The column→date map built from the header row
(`{col_index: 'YYYY-MM-DD'}` via `parse_excel_date`). -/
def date_col_map (header : List Cell) : List (Nat × String) :=
  header.enum.filterMap (fun p => (parse_excel_date p.2).map (fun d => (p.1, d)))

/-- Candidates `product_name_candidates = [str(row.iloc[0]), str(row.iloc[1]) if
len(row) > 1 else ""]` — column 0 first, then column 1. -/
def productCandidates (row : List Cell) : List String :=
  [cellToStr (row.getD 0 .absent),
   if 1 < row.length then cellToStr (row.getD 1 .absent) else ""]

/-- The row's label text: the first candidate that is non-empty and not
`'nan'`, else `""`. -/
def product_name (row : List Cell) : String :=
  ((productCandidates row).find? (fun s => s != "" && s != "nan")).getD ""

/-- One observed cell write: `(date, variant, size, count)` in the order the
data-row walk performs them. -/
abbrev Obs := String × Variant × Size × Int

/-- The per-file part of `import_matrix_excel_fast`: locate the header, build
the date-column map, and walk every data row into its observation writes. -/
def fileWrites (target_type : Variant) (grid : Grid) : List Obs :=
  match findHeaderIdx grid with
  | none => []
  | some h =>
    let header := grid.getD h []
    let dcm := date_col_map header
    if dcm.isEmpty then []
    else
      (grid.drop (h + 1)).flatMap (fun row =>
        match normalize_size (some (product_name row)) with
        | none => []
        | some size =>
          dcm.map (fun p => (p.2, target_type, size, coerceCount (row.getD p.1 .absent))))

/-- Dict `{size: count}` — a Python dict in insertion order. -/
abbrev SizeMap := List (Size × Int)

/-- Dict `{ttype: {size: count}}` — a Python dict in insertion order. -/
abbrev TypeData := List (Variant × SizeMap)

/-- Dict `date_records: {date: {ttype: {size: count}}}` — a Python dict in
insertion order. -/
abbrev DateRecords := List (String × TypeData)

instance : DecidableEq SizeMap :=
  inferInstanceAs (DecidableEq (List (Size × Int)))

instance : DecidableEq TypeData :=
  inferInstanceAs (DecidableEq (List (Variant × SizeMap)))

instance : DecidableEq DateRecords :=
  inferInstanceAs (DecidableEq (List (String × TypeData)))

/-- Dict write `m[s] = c`: update in place, or append a new key at the end
(Python dicts preserve insertion order). -/
def setSize (m : SizeMap) (s : Size) (c : Int) : SizeMap :=
  match m with
  | [] => [(s, c)]
  | (s0, c0) :: t => if s0 = s then (s, c) :: t else (s0, c0) :: setSize t s c

/-- Dict write `td[v][s] = c`, creating `td[v]` when absent. -/
def setType (td : TypeData) (v : Variant) (s : Size) (c : Int) : TypeData :=
  match td with
  | [] => [(v, [(s, c)])]
  | (v0, m0) :: t => if v0 = v then (v, setSize m0 s c) :: t else (v0, m0) :: setType t v s c

/-- Dict write `date_records[d][v][s] = c`, creating the nested dicts when
absent — the body of the innermost loop of `import_matrix_excel_fast`. -/
def recordWrite (dr : DateRecords) (w : Obs) : DateRecords :=
  match dr with
  | [] => [(w.1, setType [] w.2.1 w.2.2.1 w.2.2.2)]
  | (d0, td0) :: t =>
    if d0 = w.1 then (d0, setType td0 w.2.1 w.2.2.1 w.2.2.2) :: t
    else (d0, td0) :: recordWrite t w

/-- Embedding of `InventoryManager.import_matrix_excel_fast`: fold every uploaded file
(filename × grid) into the `date_records` dict, counting `total_loaded`
writes.  A file whose filename resolves to no variant, or whose grid has no
marker row or no date column, contributes nothing. -/
def import_matrix_excel_fast (files : List (String × Grid)) : DateRecords × Nat :=
  files.foldl
    (fun acc file =>
      match determine_type_from_filename file.1 with
      | none => acc
      | some tt =>
        (fileWrites tt file.2).foldl (fun a w => (recordWrite a.1 w, a.2 + 1)) acc)
    ([], 0)

/-! ### Snapshot store, import merger (`save_daily_record`, `import_excel_data`) -/

/-- Lexicographic `≤` on char lists by code point — Python's string
comparison, used by `sorted(records, key=lambda x: x['date'])`. -/
def strLeB : List Char → List Char → Bool
  | [], _ => true
  | _ :: _, [] => false
  | a :: as, b :: bs =>
    if a.toNat < b.toNat then true
    else if a.toNat = b.toNat then strLeB as bs
    else false

/-- Python string `≤` on the `YYYY-MM-DD` date keys. -/
def dateLe (a b : String) : Bool :=
  strLeB a.toList b.toList

/-- One snapshot of `st.session_state.records`: a calendar date's inventory
grid plus metadata.  The grid is a total map over the catalog, matching the
zero-filled invariant of the stored records. -/
structure DailyRecord where
  date : String
  timestamp : String
  inventory : Variant → Size → Int
  note : String

/-- The descending-by-date order of
`sorted(records, key=lambda x: x['date'], reverse=True)`. -/
def recDesc (a b : DailyRecord) : Prop :=
  dateLe b.date a.date = true

instance : DecidableRel recDesc := fun a b =>
  inferInstanceAs (Decidable (dateLe b.date a.date = true))

theorem strLeB_total : ∀ x y : List Char, strLeB x y = true ∨ strLeB y x = true
  | [], _ => Or.inl rfl
  | _ :: _, [] => Or.inr rfl
  | a :: as, b :: bs => by
    by_cases h1 : a.toNat < b.toNat
    · left; simp [strLeB, h1]
    · by_cases h2 : a.toNat = b.toNat
      · have h1b : ¬ b.toNat < a.toNat := by omega
        rcases strLeB_total as bs with h | h
        · left; simp [strLeB, h1, h2, h]
        · right; simp [strLeB, h1b, h2.symm, h]
      · right
        have h3 : b.toNat < a.toNat := by omega
        simp [strLeB, h3]

theorem strLeB_trans : ∀ x y z : List Char,
    strLeB x y = true → strLeB y z = true → strLeB x z = true
  | [], _, _ => fun _ _ => rfl
  | _ :: _, [], _ => by intro h; simp [strLeB] at h
  | _ :: _, _ :: _, [] => by intro _ h; simp [strLeB] at h
  | a :: as, b :: bs, c :: cs => by
    intro h1 h2
    simp only [strLeB] at h1 h2 ⊢
    by_cases hab : a.toNat < b.toNat <;> by_cases hbc : b.toNat < c.toNat
    · simp [show a.toNat < c.toNat by omega]
    · by_cases hbc2 : b.toNat = c.toNat
      · simp [show a.toNat < c.toNat by omega]
      · simp [hbc, hbc2] at h2
    · by_cases hab2 : a.toNat = b.toNat
      · simp [show a.toNat < c.toNat by omega]
      · simp [hab, hab2] at h1
    · by_cases hab2 : a.toNat = b.toNat
      · by_cases hbc2 : b.toNat = c.toNat
        · simp [hab, hab2] at h1
          simp [hbc, hbc2] at h2
          have hac : ¬ a.toNat < c.toNat := by omega
          have hac2 : a.toNat = c.toNat := by omega
          rw [if_neg hac, if_pos hac2]
          exact strLeB_trans as bs cs h1 h2
        · simp [hbc, hbc2] at h2
      · simp [hab, hab2] at h1

instance : IsTotal DailyRecord recDesc :=
  ⟨fun a b => strLeB_total b.date.toList a.date.toList⟩

instance : IsTrans DailyRecord recDesc :=
  ⟨fun _ _ _ h1 h2 => strLeB_trans _ _ _ h2 h1⟩

/-- Sorting `sorted(records, key=lambda x: x['date'], reverse=True)` — the stable
descending sort used by `save_records` and the import merger. -/
def sortRecords (recs : List DailyRecord) : List DailyRecord :=
  List.insertionSort recDesc recs

/-- Apply a `{size: count}` dict to the row of variant `v0` inside a grid
(`record['inventory'][ttype][s] = count` for each entry). -/
def applySM (inv : Variant → Size → Int) (v0 : Variant) (m : SizeMap) :
    Variant → Size → Int :=
  m.foldl (fun inv q => fun v s => if v = v0 ∧ s = q.1 then q.2 else inv v s) inv

/-- Apply a `{ttype: {size: count}}` dict to a grid — the per-date overwrite
loop of `import_excel_data`.  (The `if ttype not in record['inventory']`
zero-fill is the identity on total grids.) -/
def applyTypeData (inv : Variant → Size → Int) (td : TypeData) :
    Variant → Size → Int :=
  td.foldl (fun inv p => applySM inv p.1 p.2) inv

/-- The all-zero grid over the whole catalog
(`{t: {s: 0 for s in SIZES} for t in TSHIRT_TYPES}`). -/
def zeroInv : Variant → Size → Int := fun _ _ => 0

/-- The fresh record `import_excel_data` appends for an unseen date. -/
def newImportRecord (d : String) (td : TypeData) : DailyRecord :=
  ⟨d, d ++ "T12:00:00", applyTypeData zeroInv td, "Excel自動取込"⟩

/-- One iteration of the merge loop of `import_excel_data`: update the
existing record for this date in place (`existing_map` is keyed on the dates
present before the loop), or append a fresh zero-filled record. -/
def mergeStep (existing : List String) (recs : List DailyRecord)
    (e : String × TypeData) : List DailyRecord :=
  if e.1 ∈ existing then
    recs.map (fun r =>
      if r.date = e.1 then { r with inventory := applyTypeData r.inventory e.2 } else r)
  else recs ++ [newImportRecord e.1 e.2]

/-- The record-store effect of `import_excel_data`: merge every parsed date
into the store, then re-sort descending by date.  An empty `date_records`
leaves the store untouched (the `if date_records:` error path). -/
def import_excel_data_records (records : List DailyRecord) (dr : DateRecords) :
    List DailyRecord :=
  if dr.isEmpty then records
  else sortRecords (dr.foldl (mergeStep (records.map (·.date))) records)

/-- The process state: the in-session records list and current grid plus
their persisted (saved-to-JSON) copies. -/
structure AppState where
  records : List DailyRecord
  inventory : Variant → Size → Int
  savedRecords : List DailyRecord
  savedInventory : Variant → Size → Int

/-- Merge phase of `import_excel_data` from parsed observations: merge into the records,
persist them, and — when the store is nonempty — replace the current
inventory with the newest record's grid and persist it too. -/
def apply_import (st : AppState) (dr : DateRecords) : AppState :=
  if dr.isEmpty then st
  else
    { records := import_excel_data_records st.records dr
      inventory := ((import_excel_data_records st.records dr).head?).elim
        st.inventory (fun r => r.inventory)
      savedRecords := sortRecords (import_excel_data_records st.records dr)
      savedInventory := ((import_excel_data_records st.records dr).head?).elim
        st.savedInventory (fun r => r.inventory) }

/-- Embedding of `import_excel_data(uploaded_files)`: parse all files, then merge. -/
def import_excel_data (st : AppState) (files : List (String × Grid)) : AppState :=
  apply_import st (import_matrix_excel_fast files).1

/-- Replace the first record whose date is `today` (the `existing_idx`
branch of `save_daily_record`). -/
def replaceFirstToday (today : String) (nr : DailyRecord) :
    List DailyRecord → List DailyRecord
  | [] => []
  | r :: t => if r.date = today then nr :: t else r :: replaceFirstToday today nr t

/-- The new records list of `save_daily_record`: replace today's record in
place if one exists (`existing_idx is not None`), else insert at the front. -/
def commitRecords (records : List DailyRecord) (nr : DailyRecord) (today : String) :
    List DailyRecord :=
  if records.any (fun r => decide (r.date = today)) then
    replaceFirstToday today nr records
  else nr :: records

/-- Embedding of `save_daily_record`: commit the current grid as today's snapshot, then
persist the records (persisting sorts the written copy). -/
def save_daily_record (st : AppState) (today now : String) : AppState :=
  { st with
    records := commitRecords st.records ⟨today, now, st.inventory, "手動保存"⟩ today
    savedRecords :=
      sortRecords (commitRecords st.records ⟨today, now, st.inventory, "手動保存"⟩ today) }

/-- The two store-mutating operations reachable from the inventory tab. -/
inductive Op where
  | commit (today now : String)
  | importFiles (files : List (String × Grid))

/-- Run one operation against the state. -/
def applyOp (st : AppState) : Op → AppState
  | .commit today now => save_daily_record st today now
  | .importFiles files => import_excel_data st files

/-- Run a sequence of operations. -/
def applyOps (st : AppState) (ops : List Op) : AppState :=
  ops.foldl applyOp st

/-- The core store invariant: at most one snapshot per distinct date. -/
def storeUnique (recs : List DailyRecord) : Prop :=
  (recs.map (·.date)).Nodup

instance (recs : List DailyRecord) : Decidable (storeUnique recs) := by
  unfold storeUnique; infer_instance

/-! ### Tag ledger (`update_tag_stock`) -/

/-- One ledger entry of `tag_data['history']`. -/
structure TagEntry where
  timestamp : String
  date : String
  action : String
  amount : Int
  stock_after : Int
  note : String
deriving DecidableEq, Repr

/-- State `tag_data`: the running balance plus the most-recent-first history. -/
structure TagState where
  current_stock : Int
  history : List TagEntry
deriving DecidableEq, Repr

/-- Embedding of `update_tag_stock(action_type, amount, note)`: dispatch on the action
label's substring, compute the new balance, prepend the entry, and report
whether the negative-balance warning fired.  `none` models the `NameError`
on an action string matching no branch (unreachable from the UI's radio
values).  `now`/`today` stand for `datetime.now()`. -/
def update_tag_stock (tags : TagState) (action_type : String) (amount : Int)
    (note now today : String) : Option (TagState × Bool) :=
  let cur := tags.current_stock
  if pcontains "使用" action_type then
    let ns := cur - amount
    some (⟨ns, ⟨now, today, "使用", amount, ns, note⟩ :: tags.history⟩, decide (ns < 0))
  else if pcontains "入荷" action_type then
    let ns := cur + amount
    some (⟨ns, ⟨now, today, "入荷", amount, ns, note⟩ :: tags.history⟩, decide (ns < 0))
  else if pcontains "不良" action_type then
    let ns := cur - amount
    some (⟨ns, ⟨now, today, "不良", amount, ns, note⟩ :: tags.history⟩, decide (ns < 0))
  else none

/-! ### Pointwise semantics of the dict-driven grid updates -/

/-- The last count a `{size: count}` dict write sequence assigns to `s`. -/
def smLast : SizeMap → Size → Option Int
  | [], _ => none
  | q :: t, s =>
    match smLast t s with
    | some c => some c
    | none => if q.1 = s then some q.2 else none

/-- The last count a `{ttype: {size: count}}` dict assigns to cell `(v, s)`. -/
def tdLast : TypeData → Variant → Size → Option Int
  | [], _, _ => none
  | p :: t, v, s =>
    match tdLast t v s with
    | some c => some c
    | none => if p.1 = v then smLast p.2 s else none

/-- Predicate: `td` contains a write for cell `(v, s)`. -/
def tdMentions (td : TypeData) (v : Variant) (s : Size) : Bool :=
  td.any (fun p => decide (p.1 = v) && p.2.any (fun q => decide (q.1 = s)))

theorem applySM_apply (m : SizeMap) (inv : Variant → Size → Int) (v0 v : Variant)
    (s : Size) :
    applySM inv v0 m v s = if v = v0 then (smLast m s).getD (inv v s) else inv v s := by
  induction m generalizing inv with
  | nil => simp [applySM, smLast]
  | cons q t ih =>
    show applySM _ v0 t v s = _
    rw [ih]
    by_cases hv : v = v0
    · simp only [hv, if_pos rfl, smLast]
      cases h : smLast t s with
      | some c => rfl
      | none =>
        by_cases hs : q.1 = s
        · simp [hs]
        · have : ¬ (s = q.1) := fun hh => hs hh.symm
          simp [hs, this]
    · simp [hv]

theorem applyTypeData_apply (td : TypeData) (inv : Variant → Size → Int)
    (v : Variant) (s : Size) :
    applyTypeData inv td v s = (tdLast td v s).getD (inv v s) := by
  induction td generalizing inv with
  | nil => simp [applyTypeData, tdLast]
  | cons p t ih =>
    show applyTypeData (applySM inv p.1 p.2) t v s = _
    rw [ih, applySM_apply]
    simp only [tdLast]
    cases h : tdLast t v s with
    | some c => rfl
    | none =>
      by_cases hv : p.1 = v
      · have hv2 : v = p.1 := hv.symm
        simp [hv2]
      · have hv2 : ¬ v = p.1 := fun hh => hv hh.symm
        simp [hv, hv2]

theorem applyTypeData_idem (td : TypeData) (inv : Variant → Size → Int) :
    applyTypeData (applyTypeData inv td) td = applyTypeData inv td := by
  funext v s
  rw [applyTypeData_apply, applyTypeData_apply]
  cases h : tdLast td v s <;> simp [h]

theorem smLast_eq_none (m : SizeMap) (s : Size) (h : ∀ q ∈ m, ¬ q.1 = s) :
    smLast m s = none := by
  induction m with
  | nil => rfl
  | cons q t ih =>
    show (match smLast t s with
      | some c => some c
      | none => if q.1 = s then some q.2 else none) = none
    rw [ih (fun q2 hq => h q2 (List.mem_cons_of_mem _ hq))]
    show (if q.1 = s then some q.2 else none) = none
    rw [if_neg (h q (List.mem_cons_self _ _))]

theorem tdLast_eq_none_of_not_mentions (td : TypeData) (v : Variant) (s : Size)
    (h : tdMentions td v s = false) : tdLast td v s = none := by
  induction td with
  | nil => rfl
  | cons p t ih =>
    simp only [tdMentions, List.any_cons, Bool.or_eq_false_iff] at h
    have h2 : tdLast t v s = none := ih (by simp only [tdMentions]; exact h.2)
    show (match tdLast t v s with
      | some c => some c
      | none => if p.1 = v then smLast p.2 s else none) = none
    rw [h2]
    show (if p.1 = v then smLast p.2 s else none) = none
    by_cases hv : p.1 = v
    · rw [if_pos hv]
      apply smLast_eq_none
      intro q hq
      have h1 := h.1
      rw [decide_eq_true hv, Bool.true_and] at h1
      have := List.any_eq_false.mp h1 q hq
      simpa using this
    · rw [if_neg hv]

theorem applyTypeData_frame (td : TypeData) (inv : Variant → Size → Int)
    (v : Variant) (s : Size) (h : tdMentions td v s = false) :
    applyTypeData inv td v s = inv v s := by
  rw [applyTypeData_apply, tdLast_eq_none_of_not_mentions td v s h]
  rfl

/-! ### Dict lookup on `date_records` -/

/-- First-match lookup in the `date_records` assoc list (a Python dict lookup
once the keys are unique). -/
def dlookup (d : String) : DateRecords → Option TypeData
  | [] => none
  | e :: t => if e.1 = d then some e.2 else dlookup d t

theorem dlookup_eq_none (d : String) (dr : DateRecords)
    (h : d ∉ dr.map Prod.fst) : dlookup d dr = none := by
  induction dr with
  | nil => rfl
  | cons e t ih =>
    simp only [List.map_cons, List.mem_cons] at h
    push_neg at h
    simp only [dlookup, if_neg (fun hh : e.1 = d => h.1 hh.symm)]
    exact ih h.2

theorem dlookup_eq_some (d : String) (td : TypeData) (dr : DateRecords)
    (hk : (dr.map Prod.fst).Nodup) (h : (d, td) ∈ dr) : dlookup d dr = some td := by
  induction dr with
  | nil => simp at h
  | cons e t ih =>
    simp only [List.map_cons, List.nodup_cons] at hk
    rcases List.mem_cons.mp h with h1 | h1
    · subst h1
      simp [dlookup]
    · have hne : e.1 ≠ d := by
        intro hh
        exact hk.1 (hh ▸ (List.mem_map.mpr ⟨(d, td), h1, rfl⟩))
      simp only [dlookup, if_neg hne]
      exact ih hk.2 h1

/-! ### Closed form of the merge loop -/

/-- What the merge loop does to one pre-existing record: overwrite the cells
of its date's observations in place, when there are any. -/
def mergeUpd (E : List String) (dr : DateRecords) (r : DailyRecord) : DailyRecord :=
  if r.date ∈ E then
    match dlookup r.date dr with
    | some td => { r with inventory := applyTypeData r.inventory td }
    | none => r
  else r

theorem mergeUpd_date (E : List String) (dr : DateRecords) (r : DailyRecord) :
    (mergeUpd E dr r).date = r.date := by
  unfold mergeUpd
  split
  · split <;> rfl
  · rfl

theorem mergeUpd_nil (E : List String) (r : DailyRecord) : mergeUpd E [] r = r := by
  unfold mergeUpd
  split <;> rfl

/-- Closed form of the merge loop of `import_excel_data` (before re-sorting):
pre-existing records are updated in place, and the dates unseen before the
loop are appended in input order as fresh zero-filled records.  Requires the
input's date keys to be distinct, which Python's dict guarantees. -/
theorem merge_fold_eq (E : List String) :
    ∀ (dr : DateRecords) (recs : List DailyRecord), (dr.map Prod.fst).Nodup →
      dr.foldl (mergeStep E) recs =
        recs.map (mergeUpd E dr) ++
          (dr.filter (fun e => decide (e.1 ∉ E))).map
            (fun e => newImportRecord e.1 e.2) := by
  intro dr
  induction dr with
  | nil =>
    intro recs _
    simp only [List.foldl_nil, List.filter_nil, List.map_nil, List.append_nil]
    conv_lhs => rw [← List.map_id recs]
    exact List.map_congr_left (fun r _ => (mergeUpd_nil E r).symm)
  | cons e t ih =>
    intro recs hk
    simp only [List.map_cons, List.nodup_cons] at hk
    have hkey : e.1 ∉ t.map Prod.fst := hk.1
    by_cases he : e.1 ∈ E
    · have hstep : mergeStep E recs e = recs.map (fun r =>
          if r.date = e.1 then { r with inventory := applyTypeData r.inventory e.2 }
          else r) := by
        unfold mergeStep
        rw [if_pos he]
      have key : ∀ r : DailyRecord,
          mergeUpd E t (if r.date = e.1 then
            { r with inventory := applyTypeData r.inventory e.2 } else r) =
          mergeUpd E (e :: t) r := by
        intro r
        by_cases hd : r.date = e.1
        · rw [if_pos hd]
          unfold mergeUpd
          have hre : r.date ∈ E := hd ▸ he
          rw [if_pos hre, if_pos hre]
          have hlook : dlookup r.date t = none :=
            dlookup_eq_none r.date t (hd ▸ hkey)
          have hlook2 : dlookup r.date (e :: t) = some e.2 := by
            show (if e.1 = r.date then some e.2 else dlookup r.date t) = some e.2
            rw [if_pos hd.symm]
          rw [hlook, hlook2]
        · rw [if_neg hd]
          unfold mergeUpd
          have : dlookup r.date (e :: t) = dlookup r.date t := by
            show (if e.1 = r.date then some e.2 else dlookup r.date t) = _
            rw [if_neg (fun hh => hd hh.symm)]
          rw [this]
      have hfil : (e :: t).filter (fun x => decide (x.1 ∉ E)) =
          t.filter (fun x => decide (x.1 ∉ E)) := by
        simp [List.filter_cons, he]
      rw [List.foldl_cons, hstep, ih _ hk.2, List.map_map, hfil]
      congr 1
      exact List.map_congr_left (fun r _ => key r)
    · have hstep : mergeStep E recs e = recs ++ [newImportRecord e.1 e.2] := by
        unfold mergeStep
        rw [if_neg he]
      have hnew : mergeUpd E t (newImportRecord e.1 e.2) = newImportRecord e.1 e.2 := by
        unfold mergeUpd
        rw [if_neg (by exact he : ¬ (newImportRecord e.1 e.2).date ∈ E)]
      have key : ∀ r : DailyRecord, mergeUpd E t r = mergeUpd E (e :: t) r := by
        intro r
        unfold mergeUpd
        by_cases hre : r.date ∈ E
        · have : dlookup r.date (e :: t) = dlookup r.date t := by
            show (if e.1 = r.date then some e.2 else dlookup r.date t) = _
            rw [if_neg (fun hh : e.1 = r.date => he (hh ▸ hre))]
          rw [this]
        · rw [if_neg hre, if_neg hre]
      have hfil : (e :: t).filter (fun x => decide (x.1 ∉ E)) =
          e :: t.filter (fun x => decide (x.1 ∉ E)) := by
        simp [List.filter_cons, he]
      rw [List.foldl_cons, hstep, ih _ hk.2, hfil]
      rw [List.map_append, List.map_congr_left (fun r _ => key r)]
      simp [hnew]

/-- Dates of the merge-loop result: the old dates followed by the new ones. -/
theorem merge_fold_dates (E : List String) (dr : DateRecords)
    (recs : List DailyRecord) (hk : (dr.map Prod.fst).Nodup) :
    (dr.foldl (mergeStep E) recs).map (·.date) =
      recs.map (·.date) ++ (dr.filter (fun e => decide (e.1 ∉ E))).map Prod.fst := by
  rw [merge_fold_eq E dr recs hk, List.map_append, List.map_map, List.map_map]
  congr 1
  exact List.map_congr_left (fun r _ => mergeUpd_date E dr r)

/-! ### The parsed `date_records` dict has distinct date keys -/

theorem recordWrite_cons_pos (e : String × TypeData) (t : DateRecords) (w : Obs)
    (hd : e.1 = w.1) :
    recordWrite (e :: t) w = (e.1, setType e.2 w.2.1 w.2.2.1 w.2.2.2) :: t := by
  cases e
  simp only [recordWrite]
  rw [if_pos hd]

theorem recordWrite_cons_neg (e : String × TypeData) (t : DateRecords) (w : Obs)
    (hd : ¬ e.1 = w.1) : recordWrite (e :: t) w = e :: recordWrite t w := by
  cases e
  simp only [recordWrite]
  rw [if_neg hd]

theorem mem_keys_recordWrite (dr : DateRecords) (w : Obs) (x : String)
    (h : x ∈ (recordWrite dr w).map Prod.fst) : x ∈ dr.map Prod.fst ∨ x = w.1 := by
  induction dr with
  | nil =>
    simp only [recordWrite, List.map_cons, List.map_nil, List.mem_cons,
      List.not_mem_nil, or_false] at h
    exact Or.inr h
  | cons e t ih =>
    by_cases hd : e.1 = w.1
    · rw [recordWrite_cons_pos e t w hd] at h
      simp only [List.map_cons, List.mem_cons] at h ⊢
      tauto
    · rw [recordWrite_cons_neg e t w hd] at h
      simp only [List.map_cons, List.mem_cons] at h ⊢
      rcases h with h | h
      · tauto
      · rcases ih h with h2 | h2 <;> tauto

theorem keys_nodup_recordWrite (dr : DateRecords) (w : Obs)
    (h : (dr.map Prod.fst).Nodup) : ((recordWrite dr w).map Prod.fst).Nodup := by
  induction dr with
  | nil => simp [recordWrite]
  | cons e t ih =>
    simp only [List.map_cons, List.nodup_cons] at h
    by_cases hd : e.1 = w.1
    · rw [recordWrite_cons_pos e t w hd]
      simp only [List.map_cons, List.nodup_cons]
      exact h
    · rw [recordWrite_cons_neg e t w hd]
      simp only [List.map_cons, List.nodup_cons]
      refine ⟨fun hm => ?_, ih h.2⟩
      rcases mem_keys_recordWrite t w e.1 hm with h2 | h2
      · exact h.1 h2
      · exact hd h2

theorem keys_nodup_foldWrites (ws : List Obs) (acc : DateRecords × Nat)
    (h : (acc.1.map Prod.fst).Nodup) :
    (((ws.foldl (fun a w => (recordWrite a.1 w, a.2 + 1)) acc)).1.map Prod.fst).Nodup := by
  induction ws generalizing acc with
  | nil => exact h
  | cons w t ih => exact ih _ (keys_nodup_recordWrite acc.1 w h)

/-- The dict built by `import_matrix_excel_fast` has pairwise-distinct date
keys — it is a Python dict. -/
theorem import_matrix_keys_nodup (files : List (String × Grid)) :
    ((import_matrix_excel_fast files).1.map Prod.fst).Nodup := by
  suffices hgen : ∀ (fs : List (String × Grid)) (acc : DateRecords × Nat),
      (acc.1.map Prod.fst).Nodup →
      (((fs.foldl (fun acc file =>
          match determine_type_from_filename file.1 with
          | none => acc
          | some tt =>
            (fileWrites tt file.2).foldl (fun a w => (recordWrite a.1 w, a.2 + 1)) acc)
        acc)).1.map Prod.fst).Nodup by
    exact hgen files ([], 0) (by simp)
  intro fs
  induction fs with
  | nil => intro acc h; exact h
  | cons f t ih =>
    intro acc h
    simp only [List.foldl_cons]
    cases determine_type_from_filename f.1 with
    | none => exact ih acc h
    | some tt => exact ih _ (keys_nodup_foldWrites _ acc h)

/-! ### Store-level facts about the merge and the commit -/

theorem apply_import_records (st : AppState) (dr : DateRecords) :
    (apply_import st dr).records = import_excel_data_records st.records dr := by
  unfold apply_import
  by_cases hemp : dr.isEmpty
  · rw [if_pos hemp]
    show st.records = _
    unfold import_excel_data_records
    rw [if_pos hemp]
  · rw [if_neg hemp]

theorem import_records_unique (records : List DailyRecord) (dr : DateRecords)
    (h : storeUnique records) (hk : (dr.map Prod.fst).Nodup) :
    storeUnique (import_excel_data_records records dr) := by
  unfold import_excel_data_records
  by_cases hemp : dr.isEmpty
  · rwa [if_pos hemp]
  · rw [if_neg hemp]
    have hperm : List.Perm
        ((sortRecords (dr.foldl (mergeStep (records.map (·.date))) records)).map
          (fun r : DailyRecord => r.date))
        ((dr.foldl (mergeStep (records.map (·.date))) records).map
          (fun r : DailyRecord => r.date)) :=
      (List.perm_insertionSort recDesc _).map _
    unfold storeUnique
    rw [hperm.nodup_iff, merge_fold_dates _ _ _ hk]
    rw [List.nodup_append]
    refine ⟨h, ?_, ?_⟩
    · exact hk.sublist ((List.filter_sublist dr).map Prod.fst)
    · intro a ha ha2
      rcases List.mem_map.mp ha2 with ⟨e, he, rfl⟩
      rcases List.mem_filter.mp he with ⟨_, hdec⟩
      exact (of_decide_eq_true hdec) ha

theorem replaceFirst_dates (today : String) (nr : DailyRecord) (hd : nr.date = today) :
    ∀ l : List DailyRecord, (replaceFirstToday today nr l).map (·.date) = l.map (·.date)
  | [] => rfl
  | r :: t => by
    unfold replaceFirstToday
    by_cases hr : r.date = today
    · rw [if_pos hr]
      simp only [List.map_cons]
      rw [hd, hr]
    · rw [if_neg hr]
      simp only [List.map_cons]
      rw [replaceFirst_dates today nr hd t]

theorem commitRecords_unique (records : List DailyRecord) (nr : DailyRecord)
    (today : String) (hd : nr.date = today) (h : storeUnique records) :
    storeUnique (commitRecords records nr today) := by
  unfold commitRecords storeUnique
  by_cases hany : records.any (fun r => decide (r.date = today))
  · rw [if_pos hany]
    rw [replaceFirst_dates today nr hd records]
    exact h
  · rw [if_neg hany]
    simp only [List.map_cons, List.nodup_cons]
    refine ⟨fun hm => ?_, h⟩
    rcases List.mem_map.mp hm with ⟨r, hr, hrd⟩
    have := List.any_eq_false.mp (eq_false_of_ne_true hany) r hr
    simp only [decide_eq_true_eq] at this
    exact this (hrd.trans hd)

theorem save_daily_unique (st : AppState) (today now : String)
    (h : storeUnique st.records) : storeUnique (save_daily_record st today now).records := by
  unfold save_daily_record
  exact commitRecords_unique st.records _ today rfl h

/-! ### Idempotence of the merge -/

theorem import_idem_keys (records : List DailyRecord) (dr : DateRecords)
    (hk : (dr.map Prod.fst).Nodup) :
    import_excel_data_records (import_excel_data_records records dr) dr =
      import_excel_data_records records dr := by
  by_cases hemp : dr.isEmpty
  · unfold import_excel_data_records
    rw [if_pos hemp, if_pos hemp]
  · have hE : import_excel_data_records records dr =
        sortRecords (dr.foldl (mergeStep (records.map (·.date))) records) := by
      unfold import_excel_data_records
      rw [if_neg hemp]
    set E := records.map (·.date) with hEdef
    set F := dr.foldl (mergeStep E) records with hFdef
    set S1 := sortRecords F with hS1def
    have hS1sorted : List.Sorted recDesc S1 := List.sorted_insertionSort recDesc F
    have hFeq : F = records.map (mergeUpd E dr) ++
        (dr.filter (fun e => decide (e.1 ∉ E))).map (fun e => newImportRecord e.1 e.2) :=
      merge_fold_eq E dr records hk
    -- every input date key is a date of the once-imported store
    have hkeys : ∀ e ∈ dr, e.1 ∈ S1.map (·.date) := by
      intro e he
      have : e.1 ∈ F.map (·.date) := by
        rw [hFdef, merge_fold_dates E dr records hk]
        rw [List.mem_append]
        by_cases hin : e.1 ∈ E
        · exact Or.inl hin
        · refine Or.inr (List.mem_map.mpr ⟨e, ?_, rfl⟩)
          exact List.mem_filter.mpr ⟨he, decide_eq_true hin⟩
      exact (((List.perm_insertionSort recDesc F).map (fun r : DailyRecord => r.date)).mem_iff).mpr this
    -- the second merge updates every record with a fixpoint of its own observations
    have hfix : ∀ r2 ∈ S1, mergeUpd (S1.map (·.date)) dr r2 = r2 := by
      intro r2 hr2
      have hr2F : r2 ∈ F := (List.mem_insertionSort recDesc).mp hr2
      rw [hFeq] at hr2F
      have hinv : ∀ td, dlookup r2.date dr = some td →
          applyTypeData r2.inventory td = r2.inventory := by
        intro td hlk
        rcases List.mem_append.mp hr2F with hmem | hmem
        · rcases List.mem_map.mp hmem with ⟨r0, hr0, rfl⟩
          have hr0E : r0.date ∈ E := by
            rw [hEdef]
            exact List.mem_map.mpr ⟨r0, hr0, rfl⟩
          have hdate : (mergeUpd E dr r0).date = r0.date := mergeUpd_date E dr r0
          rw [hdate] at hlk
          have : mergeUpd E dr r0 =
              { r0 with inventory := applyTypeData r0.inventory td } := by
            unfold mergeUpd
            rw [if_pos hr0E, hlk]
          rw [this]
          exact applyTypeData_idem td r0.inventory
        · rcases List.mem_map.mp hmem with ⟨e, he, rfl⟩
          have heDr : e ∈ dr := (List.mem_filter.mp he).1
          have : dlookup (newImportRecord e.1 e.2).date dr = some e.2 :=
            dlookup_eq_some e.1 e.2 dr hk heDr
          rw [this] at hlk
          injection hlk with hlk2
          subst hlk2
          exact applyTypeData_idem e.2 zeroInv
      unfold mergeUpd
      split
      · cases hlk : dlookup r2.date dr with
        | none => rfl
        | some td =>
          show { r2 with inventory := applyTypeData r2.inventory td } = r2
          rw [hinv td hlk]
      · rfl
    -- assemble
    rw [hE]
    show import_excel_data_records S1 dr = S1
    unfold import_excel_data_records
    rw [if_neg hemp]
    rw [merge_fold_eq (S1.map (·.date)) dr S1 hk]
    have hfil : dr.filter (fun e => decide (e.1 ∉ S1.map (·.date))) = [] := by
      rw [List.filter_eq_nil_iff]
      intro e he
      simp only [decide_eq_true_eq]
      intro hne
      exact hne (hkeys e he)
    rw [hfil, List.map_nil, List.append_nil]
    rw [List.map_congr_left (fun r hr => hfix r hr)]
    rw [show List.map (fun r : DailyRecord => r) S1 = S1 from by
      conv_rhs => rw [← List.map_id S1]
      rfl]
    exact hS1sorted.insertionSort_eq

/-! ### Claim C1 — variant recognition -/

/-- C1 counterexample: the claim says a filename containing both a white and
a black token yields Unrecognized, but on `"白黒なし.xlsx"` (white + black +
mark-absent) the code's first branch `is_white and is_nasi` fires and returns
the white/mark-absent variant. -/
theorem variant_both_colors_resolves_white :
    determine_type_from_filename "白黒なし.xlsx" = some Variant.whiteNasi := by
  decide

/-- C1 (amended): `determine_type_from_filename` returns Unrecognized iff it
is not the case that at least one color flag and at least one mark flag hold;
when several flags hold the `if/elif` order decides, so white + mark-absent
wins whenever both of those flags are set, regardless of the black flag. -/
theorem variant_unrecognized_iff (filename : String) :
    (determine_type_from_filename filename = none ↔
      ((is_white (fnBase filename) || is_black (fnBase filename)) &&
        (is_ari (fnBase filename) || is_nasi (fnBase filename))) = false)
    ∧ (is_white (fnBase filename) = true → is_nasi (fnBase filename) = true →
        determine_type_from_filename filename = some Variant.whiteNasi) := by
  unfold determine_type_from_filename
  constructor
  · cases hw : is_white (fnBase filename) <;> cases hb : is_black (fnBase filename) <;>
      cases ha : is_ari (fnBase filename) <;> cases hn : is_nasi (fnBase filename) <;>
      simp [hw, hb, ha, hn]
  · intro hw hn
    simp [hw, hn]

/-- C1 witness for the amended precedence clause, at a concrete filename. -/
theorem variant_unrecognized_iff_witness :
    is_white (fnBase "白黒なし.xlsx") = true ∧ is_nasi (fnBase "白黒なし.xlsx") = true ∧
      determine_type_from_filename "白黒なし.xlsx" = some Variant.whiteNasi :=
  ⟨by decide, by decide,
    (variant_unrecognized_iff "白黒なし.xlsx").2 (by decide) (by decide)⟩

/-! ### Claim C2 — header scan bound -/

/-- A sheet whose only marker row sits at row index 20, beyond the claimed
scan bound of 15. -/
def gridMarkerAt20 : Grid :=
  List.replicate 20 [Cell.cstr "データ"] ++
    [[Cell.cstr "商品名", Cell.cstr "2025-12-14"], [Cell.cstr "M", Cell.cnum 5]]

/-- C2 counterexample: the claim says a marker row after row 15 is never
found and such a sheet yields empty observations; the code scans all rows,
finds the header at index 20, and produces a non-empty observation set. -/
theorem header_beyond_bound_found :
    findHeaderIdx gridMarkerAt20 = some 20 ∧
    import_matrix_excel_fast [("在庫_黒_マークあり.xlsx", gridMarkerAt20)] =
      ([("2025-12-14", [(Variant.blackAri, [(Size.sM, 5)])])], 1) := by
  constructor
  · decide
  · decide

/-- C2 (amended): the header scan is unbounded — whenever some row `i`
contains the marker, the scan finds a header row at an index `j ≤ i` (the
first marker row), at any depth. -/
theorem header_scan_unbounded (grid : Grid) (i : Nat) (hi : i < grid.length)
    (hm : rowHasMarker (grid.getD i []) = true) :
    ∃ j, findHeaderIdx grid = some j ∧ j ≤ i ∧ rowHasMarker (grid.getD j []) = true := by
  induction grid generalizing i with
  | nil => simp at hi
  | cons row rest ih =>
    by_cases hr : rowHasMarker row
    · exact ⟨0, by simp [findHeaderIdx, hr], Nat.zero_le i, by simpa using hr⟩
    · cases i with
      | zero =>
        rw [List.getD_cons_zero] at hm
        exact absurd hm hr
      | succ i2 =>
        have hi2 : i2 < rest.length := by simpa using hi
        have hm2 : rowHasMarker (rest.getD i2 []) = true := by
          simpa [List.getD_cons_succ] using hm
        rcases ih i2 hi2 hm2 with ⟨j, hj1, hj2, hj3⟩
        refine ⟨j + 1, by simp [findHeaderIdx, hr, hj1], Nat.succ_le_succ hj2, ?_⟩
        simpa [List.getD_cons_succ] using hj3

/-- C2 witness: the amended scan property at the concrete deep-marker grid. -/
theorem header_scan_unbounded_witness :
    rowHasMarker (gridMarkerAt20.getD 20 []) = true ∧
    ∃ j, findHeaderIdx gridMarkerAt20 = some j ∧ j ≤ 20 ∧
      rowHasMarker (gridMarkerAt20.getD j []) = true :=
  ⟨by decide, header_scan_unbounded gridMarkerAt20 20 (by decide) (by decide)⟩

/-! ### Claim C3 — row-label column preference -/

/-- A sheet whose data row has a size label in both of the first two
columns: `"M"` in column 0 and `"L"` in column 1. -/
def gridBothCols : Grid :=
  [[Cell.cstr "商品名", Cell.cstr "サイズ", Cell.cstr "2025-12-14"],
   [Cell.cstr "M", Cell.cstr "L", Cell.cnum 7]]

/-- C3 counterexample: the claim says column index 1 is preferred, so the
row above should be read as size `L`; the code lists
`[str(row.iloc[0]), str(row.iloc[1])]` in that order, takes `"M"` from
column 0, and records the count under size `M`. -/
theorem label_prefers_col0_counterexample :
    product_name [Cell.cstr "M", Cell.cstr "L", Cell.cnum 7] = "M" ∧
    import_matrix_excel_fast [("在庫_黒_マークあり.xlsx", gridBothCols)] =
      ([("2025-12-14", [(Variant.blackAri, [(Size.sM, 7)])])], 1) := by
  constructor
  · decide
  · decide

/-- C3 (amended): the row label is the first non-empty, non-`'nan'` value
taking column index 0 first and column index 1 second; column 1 is used only
when column 0 is empty or `'nan'`. -/
theorem row_label_prefers_col0 (row : List Cell) :
    (cellToStr (row.getD 0 .absent) ≠ "" → cellToStr (row.getD 0 .absent) ≠ "nan" →
      product_name row = cellToStr (row.getD 0 .absent))
    ∧ ((cellToStr (row.getD 0 .absent) = "" ∨ cellToStr (row.getD 0 .absent) = "nan") →
        1 < row.length →
        cellToStr (row.getD 1 .absent) ≠ "" → cellToStr (row.getD 1 .absent) ≠ "nan" →
        product_name row = cellToStr (row.getD 1 .absent)) := by
  have hcand : productCandidates row =
      [cellToStr (row.getD 0 .absent),
       if 1 < row.length then cellToStr (row.getD 1 .absent) else ""] := rfl
  constructor
  · intro h1 h2
    have hp : (cellToStr (row.getD 0 .absent) != "" &&
        cellToStr (row.getD 0 .absent) != "nan") = true := by
      rw [Bool.and_eq_true, bne_iff_ne, bne_iff_ne]
      exact ⟨h1, h2⟩
    show ((productCandidates row).find? _).getD "" = _
    rw [hcand, @List.find?_cons_of_pos _ (fun s => s != "" && s != "nan") _ _ hp]
    rfl
  · intro h0 hlen h1 h2
    have hp0 : ¬ ((cellToStr (row.getD 0 .absent) != "" &&
        cellToStr (row.getD 0 .absent) != "nan") = true) := by
      rw [Bool.and_eq_true, bne_iff_ne, bne_iff_ne]
      rintro ⟨hx, hy⟩
      rcases h0 with h0 | h0
      · exact hx h0
      · exact hy h0
    have hp1 : (cellToStr (row.getD 1 .absent) != "" &&
        cellToStr (row.getD 1 .absent) != "nan") = true := by
      rw [Bool.and_eq_true, bne_iff_ne, bne_iff_ne]
      exact ⟨h1, h2⟩
    show ((productCandidates row).find? _).getD "" = _
    rw [hcand, if_pos hlen,
      @List.find?_cons_of_neg _ (fun s => s != "" && s != "nan") _ _ hp0,
      @List.find?_cons_of_pos _ (fun s => s != "" && s != "nan") _ _ hp1]
    rfl

/-- C3 witness: the amended label rule at the concrete two-label row. -/
theorem row_label_prefers_col0_witness :
    cellToStr ([Cell.cstr "M", Cell.cstr "L", Cell.cnum 7].getD 0 .absent) ≠ "" ∧
    product_name [Cell.cstr "M", Cell.cstr "L", Cell.cnum 7] =
      cellToStr ([Cell.cstr "M", Cell.cstr "L", Cell.cnum 7].getD 0 .absent) :=
  ⟨by decide, (row_label_prefers_col0 [Cell.cstr "M", Cell.cstr "L", Cell.cnum 7]).1
    (by decide) (by decide)⟩

/-! ### Claim C7 — size-token precedence -/

theorem chStarts_iff (n : List Char) : ∀ h : List Char, chStarts n h = true ↔ n <+: h := by
  induction n with
  | nil => intro h; simp [chStarts, List.nil_prefix]
  | cons a as ih =>
    intro h
    cases h with
    | nil => simp [chStarts, List.prefix_nil]
    | cons b bs =>
      rw [show chStarts (a :: as) (b :: bs) = (a == b && chStarts as bs) from rfl]
      rw [Bool.and_eq_true, beq_iff_eq, ih bs]
      exact (List.cons_prefix_cons).symm

theorem chContains_iff (n : List Char) : ∀ h : List Char, chContains n h = true ↔ n <:+: h := by
  intro h
  induction h with
  | nil =>
    rw [show chContains n [] = n.isEmpty from rfl, List.isEmpty_iff, List.infix_nil]
  | cons c t ih =>
    rw [show chContains n (c :: t) = (chStarts n (c :: t) || chContains n t) from rfl]
    rw [Bool.or_eq_true, chStarts_iff n (c :: t), ih]
    exact (List.infix_cons_iff).symm

/-- A string containing `"XXL"` also contains `"XL"` as a substring. -/
theorem pcontains_XL_of_XXL (v : String) (h : pcontains "XXL" v = true) :
    pcontains "XL" v = true := by
  unfold pcontains at h ⊢
  rw [chContains_iff] at h ⊢
  exact List.IsInfix.trans ((chContains_iff _ _).mp (by decide)) h

/-- The size-token rules in the order the `if/elif` chain of
`normalize_size` tests them: 150, 160, XXL/3L, XL/LL, L, M, S. -/
def size_rules : List ((String → Bool) × Size) :=
  [(fun v => pcontains "150" v, .s150),
   (fun v => pcontains "160" v, .s160),
   (fun v => pcontains "XXL" v || pcontains "3L" v, .sXXL),
   (fun v => pcontains "XL" v || pcontains "LL" v, .sXL),
   (fun v => pcontains "L" v, .sL),
   (fun v => pcontains "M" v, .sM),
   (fun v => pcontains "S" v, .sS)]

/-- First-match evaluation of an ordered rule list. -/
def firstMatch : List ((String → Bool) × Size) → String → Option Size
  | [], _ => none
  | r :: t, v => if r.1 v then some r.2 else firstMatch t v

/-- C7: `normalize_size` is exactly first-match evaluation of the token rules
in the fixed precedence order 150, 160, XXL/3L, XL/LL, L, M, S; hence a label
whose canonical text contains `XL` (and `LL`) but no higher-precedence token
normalizes to `XL`, and a label containing `XXL` normalizes to `XXL` even
though it also contains `XL` as a substring. -/
theorem size_precedence_order :
    (∀ cv : String, normalize_size (some cv) = firstMatch size_rules (canonSizeText cv))
    ∧ (∀ cv : String, pcontains "150" (canonSizeText cv) = false →
        pcontains "160" (canonSizeText cv) = false →
        pcontains "XXL" (canonSizeText cv) = false →
        pcontains "3L" (canonSizeText cv) = false →
        pcontains "XL" (canonSizeText cv) = true →
        pcontains "LL" (canonSizeText cv) = true →
        normalize_size (some cv) = some Size.sXL)
    ∧ (∀ cv : String, pcontains "XXL" (canonSizeText cv) = true →
        pcontains "XL" (canonSizeText cv) = true
        ∧ (pcontains "150" (canonSizeText cv) = false →
           pcontains "160" (canonSizeText cv) = false →
           normalize_size (some cv) = some Size.sXXL)) := by
  refine ⟨fun cv => rfl, ?_, ?_⟩
  · intro cv h150 h160 hXXL h3L hXL hLL
    simp [normalize_size, h150, h160, hXXL, h3L, hXL]
  · intro cv hXXL
    refine ⟨pcontains_XL_of_XXL _ hXXL, fun h150 h160 => ?_⟩
    simp [normalize_size, h150, h160, hXXL]

/-- C7 witness: a concrete label with both `XL` and `LL` tokens resolves to
`XL`, and a concrete full-width `ＸＸＬ` label resolves to `XXL`. -/
theorem size_precedence_order_witness :
    pcontains "XL" (canonSizeText "XL・LL") = true ∧
    normalize_size (some "XL・LL") = some Size.sXL ∧
    pcontains "XXL" (canonSizeText "ＸＸＬ") = true ∧
    normalize_size (some "ＸＸＬ") = some Size.sXXL :=
  ⟨by decide,
   size_precedence_order.2.1 "XL・LL" (by decide) (by decide) (by decide) (by decide)
     (by decide) (by decide),
   by decide,
   (size_precedence_order.2.2 "ＸＸＬ" (by decide)).2 (by decide) (by decide)⟩

/-! ### Claim C8 — count coercion -/

theorem dropWhile_forall (p : Char → Bool) (l : List Char) :
    (∀ x ∈ l.dropWhile p, p x = true) ↔ (∀ x ∈ l, p x = true) := by
  induction l with
  | nil => simp
  | cons c t ih =>
    by_cases hc : p c
    · rw [show (c :: t).dropWhile p = t.dropWhile p from by simp [List.dropWhile, hc]]
      rw [ih]
      constructor
      · intro h x hx
        rcases List.mem_cons.mp hx with rfl | hx
        · exact hc
        · exact h x hx
      · intro h x hx
        exact h x (List.mem_cons_of_mem _ hx)
    · have hc2 : p c = false := by simpa using hc
      rw [show (c :: t).dropWhile p = c :: t from by simp [List.dropWhile, hc2]]

theorem pstrip_eq_empty (s : String) :
    pstrip s = "" ↔ ∀ c ∈ s.toList, pyIsSpace c = true := by
  rw [String.ext_iff]
  show (((s.toList.dropWhile pyIsSpace).reverse.dropWhile pyIsSpace).reverse : List Char)
      = [] ↔ _
  rw [List.reverse_eq_nil_iff, List.dropWhile_eq_nil_iff]
  constructor
  · intro h
    rw [← dropWhile_forall pyIsSpace s.toList]
    intro x hx
    exact h x (List.mem_reverse.mpr hx)
  · intro h x hx
    exact h x ((List.dropWhile_sublist pyIsSpace).mem (List.mem_reverse.mp hx))

theorem parseFloatTrunc_blank (s : String) (h : pstrip s = "") :
    parseFloatTrunc s = none := by
  unfold parseFloatTrunc
  rw [h]
  rfl

theorem coerceCount_cstr_none (s : String) (h : parseFloatTrunc s = none) :
    coerceCount (.cstr s) = 0 := by
  show (if pstrip s = "" then 0 else (tryIntFloat (.cstr s)).getD 0) = 0
  by_cases hb : pstrip s = ""
  · rw [if_pos hb]
  · rw [if_neg hb]
    show (parseFloatTrunc s).getD 0 = 0
    rw [h]
    rfl

theorem coerceCount_cstr_some (s : String) (n : Int) (h : parseFloatTrunc s = some n) :
    coerceCount (.cstr s) = n := by
  have hb : ¬ pstrip s = "" := by
    intro hb
    rw [parseFloatTrunc_blank s hb] at h
    cases h
  show (if pstrip s = "" then 0 else (tryIntFloat (.cstr s)).getD 0) = n
  rw [if_neg hb]
  show (parseFloatTrunc s).getD 0 = n
  rw [h]
  rfl

theorem coerceCount_cnum (n : Int) : coerceCount (.cnum n) = n := by
  have h0 : ('0' : Char) ∈ (cellToStr (.cnum n)).toList := by
    show '0' ∈ ((toString n ++ ".0").data : List Char)
    rw [String.data_append]
    exact List.mem_append_right _ (by decide)
  have hne : ¬ pstrip (cellToStr (.cnum n)) = "" := by
    intro h
    exact absurd ((pstrip_eq_empty _).mp h '0' h0) (by decide)
  show (if pstrip (cellToStr (.cnum n)) = "" then 0 else (tryIntFloat (.cnum n)).getD 0) = n
  rw [if_neg hne]
  rfl

/-- C8: count coercion is total and never raises — an integral float or a
decimal-literal string converts by float-then-truncate (`"12.0"` gives 12),
and an absent, blank, or non-numeric cell counts as 0. -/
theorem count_coercion_total :
    coerceCount (Cell.cstr "12.0") = 12
    ∧ coerceCount Cell.absent = 0
    ∧ coerceCount (Cell.cstr "") = 0
    ∧ coerceCount (Cell.cstr "abc") = 0
    ∧ (∀ n : Int, coerceCount (Cell.cnum n) = n)
    ∧ (∀ s n, parseFloatTrunc s = some n → coerceCount (Cell.cstr s) = n)
    ∧ (∀ s, parseFloatTrunc s = none → coerceCount (Cell.cstr s) = 0) :=
  ⟨by decide, rfl, by decide, by decide, coerceCount_cnum, coerceCount_cstr_some,
    coerceCount_cstr_none⟩

/-- C8 witness: the float-then-truncate clause and the non-numeric clause at
concrete strings. -/
theorem count_coercion_total_witness :
    parseFloatTrunc "34.5" = some 34 ∧ coerceCount (Cell.cstr "34.5") = 34 ∧
    parseFloatTrunc "1a" = none ∧ coerceCount (Cell.cstr "1a") = 0 :=
  ⟨by decide, count_coercion_total.2.2.2.2.2.1 "34.5" 34 (by decide),
   by decide, count_coercion_total.2.2.2.2.2.2 "1a" (by decide)⟩

/-! ### Claim C9 — tag ledger arithmetic -/

/-- C9: for every balance and positive amount, `update_tag_stock` subtracts
on consume (`使用`) and defect (`不良`), adds on receive (`入荷`), prepends
the entry carrying the resulting balance, and flags — without rejecting —
exactly the results that go negative. -/
theorem tag_ledger_arith (tags : TagState) (amount : Int) (note now today : String)
    (h : 0 < amount) :
    update_tag_stock tags "使用 (－)" amount note now today =
      some (⟨tags.current_stock - amount,
        ⟨now, today, "使用", amount, tags.current_stock - amount, note⟩ :: tags.history⟩,
        decide (tags.current_stock - amount < 0))
    ∧ update_tag_stock tags "入荷・追加 (＋)" amount note now today =
      some (⟨tags.current_stock + amount,
        ⟨now, today, "入荷", amount, tags.current_stock + amount, note⟩ :: tags.history⟩,
        decide (tags.current_stock + amount < 0))
    ∧ update_tag_stock tags "不良 (－)" amount note now today =
      some (⟨tags.current_stock - amount,
        ⟨now, today, "不良", amount, tags.current_stock - amount, note⟩ :: tags.history⟩,
        decide (tags.current_stock - amount < 0)) := by
  refine ⟨?_, ?_, ?_⟩
  · have hc : pcontains "使用" "使用 (－)" = true := by decide
    simp [update_tag_stock, hc]
  · have hc1 : pcontains "使用" "入荷・追加 (＋)" = false := by decide
    have hc2 : pcontains "入荷" "入荷・追加 (＋)" = true := by decide
    simp [update_tag_stock, hc1, hc2]
  · have hc1 : pcontains "使用" "不良 (－)" = false := by decide
    have hc2 : pcontains "入荷" "不良 (－)" = false := by decide
    have hc3 : pcontains "不良" "不良 (－)" = true := by decide
    simp [update_tag_stock, hc1, hc2, hc3]

/-- C9 witness: balance 10, consume 15 — recorded as −5 with the warning
flag, not rejected. -/
theorem tag_ledger_arith_witness :
    (0 : Int) < 15 ∧
    update_tag_stock ⟨10, []⟩ "使用 (－)" 15 "" "t" "d" =
      some (⟨-5, [⟨"t", "d", "使用", 15, -5, ""⟩]⟩, true) :=
  ⟨by decide, (tag_ledger_arith ⟨10, []⟩ 15 "" "t" "d" (by decide)).1⟩

/-! ### Claim C4 — idempotence of re-importing a file -/

/-- C4: importing the same parsed file(s) twice in a row leaves the Snapshot
Store identical to importing once — the second merge only rewrites every
touched cell with the value it already has, and re-sorting a sorted store is
the identity. -/
theorem import_twice_idempotent (records : List DailyRecord)
    (files : List (String × Grid)) :
    import_excel_data_records
        (import_excel_data_records records (import_matrix_excel_fast files).1)
        (import_matrix_excel_fast files).1 =
      import_excel_data_records records (import_matrix_excel_fast files).1 :=
  import_idem_keys records (import_matrix_excel_fast files).1
    (import_matrix_keys_nodup files)

/-! ### Claim C5 — the merge is field-local -/

theorem import_records_eq_sort (records : List DailyRecord) (dr : DateRecords)
    (h : dr ≠ []) :
    import_excel_data_records records dr =
      sortRecords (dr.foldl (mergeStep (records.map (·.date))) records) := by
  unfold import_excel_data_records
  rw [if_neg]
  intro hemp
  exact h (List.isEmpty_iff.mp hemp)

/-- C5: merging observations into the store (i) overwrites, on an existing
date's record, only the mentioned cells — an unmentioned cell keeps exactly
its previous value; (ii) starts a fresh date's grid fully zero-filled before
applying the input cells — each cell holds its last input write, else 0; and
(iii) produces a record for every input date. -/
theorem import_merge_field_local (records : List DailyRecord) (dr : DateRecords)
    (hrec : storeUnique records) (hkeys : (dr.map Prod.fst).Nodup) :
    (∀ d td r v s, (d, td) ∈ dr → r ∈ records → r.date = d → tdMentions td v s = false →
      ∀ r2 ∈ import_excel_data_records records dr, r2.date = d →
        r2.inventory v s = r.inventory v s)
    ∧ (∀ d td v s, (d, td) ∈ dr → d ∉ records.map (·.date) →
      ∀ r2 ∈ import_excel_data_records records dr, r2.date = d →
        r2.inventory v s = (tdLast td v s).getD 0)
    ∧ (∀ d td, (d, td) ∈ dr →
      ∃ r2 ∈ import_excel_data_records records dr, r2.date = d) := by
  have hFeq := merge_fold_eq (records.map (·.date)) dr records hkeys
  refine ⟨?_, ?_, ?_⟩
  · intro d td r v s hdtd hr hrd hmen r2 hr2 hr2d
    have hne : dr ≠ [] := by rintro rfl; cases hdtd
    rw [import_records_eq_sort records dr hne] at hr2
    have hr2F := (List.mem_insertionSort recDesc).mp hr2
    rw [hFeq] at hr2F
    rcases List.mem_append.mp hr2F with hmem | hmem
    · rcases List.mem_map.mp hmem with ⟨r0, hr0, hr0e⟩
      have hr0d : r0.date = d := by
        rw [← hr2d, ← hr0e, mergeUpd_date]
      have hr0r : r0 = r :=
        List.inj_on_of_nodup_map hrec hr0 hr (by rw [hr0d, hrd])
      subst hr0r
      have hr0E : r0.date ∈ records.map (·.date) :=
        List.mem_map.mpr ⟨r0, hr0, rfl⟩
      have hlook : dlookup r0.date dr = some td := by
        rw [hr0d]
        exact dlookup_eq_some d td dr hkeys hdtd
      have : mergeUpd (records.map (·.date)) dr r0 =
          { r0 with inventory := applyTypeData r0.inventory td } := by
        unfold mergeUpd
        rw [if_pos hr0E, hlook]
      rw [← hr0e, this]
      exact applyTypeData_frame td r0.inventory v s hmen
    · rcases List.mem_map.mp hmem with ⟨e, he, hee⟩
      have heE : e.1 ∉ records.map (·.date) :=
        of_decide_eq_true (List.mem_filter.mp he).2
      have : e.1 = d := by rw [← hr2d, ← hee]; rfl
      rw [this] at heE
      exact absurd (by rw [← hrd]; exact List.mem_map.mpr ⟨r, hr, rfl⟩) heE
  · intro d td v s hdtd hdE r2 hr2 hr2d
    have hne : dr ≠ [] := by rintro rfl; cases hdtd
    rw [import_records_eq_sort records dr hne] at hr2
    have hr2F := (List.mem_insertionSort recDesc).mp hr2
    rw [hFeq] at hr2F
    rcases List.mem_append.mp hr2F with hmem | hmem
    · rcases List.mem_map.mp hmem with ⟨r0, hr0, hr0e⟩
      have hr0d : r0.date = d := by
        rw [← hr2d, ← hr0e, mergeUpd_date]
      exact absurd (hr0d ▸ List.mem_map.mpr ⟨r0, hr0, rfl⟩) hdE
    · rcases List.mem_map.mp hmem with ⟨e, he, hee⟩
      have heDr : e ∈ dr := (List.mem_filter.mp he).1
      have hed : e.1 = d := by rw [← hr2d, ← hee]; rfl
      have hlook1 : dlookup d dr = some td := dlookup_eq_some d td dr hkeys hdtd
      have hlook2 : dlookup d dr = some e.2 := by
        rw [← hed]
        exact dlookup_eq_some e.1 e.2 dr hkeys (by simpa using heDr)
      have he2 : e.2 = td := by
        rw [hlook1] at hlook2
        injection hlook2 with h2
        exact h2.symm
      have : r2.inventory v s = applyTypeData zeroInv e.2 v s := by rw [← hee]; rfl
      rw [this, he2, applyTypeData_apply]
      rfl
  · intro d td hdtd
    have hne : dr ≠ [] := by rintro rfl; cases hdtd
    rw [import_records_eq_sort records dr hne]
    by_cases hdE : d ∈ records.map (·.date)
    · rcases List.mem_map.mp hdE with ⟨r0, hr0, hr0d⟩
      refine ⟨mergeUpd (records.map (·.date)) dr r0, ?_, ?_⟩
      · exact (List.mem_insertionSort recDesc).mpr
          (by rw [hFeq]; exact List.mem_append.mpr (Or.inl (List.mem_map.mpr ⟨r0, hr0, rfl⟩)))
      · rw [mergeUpd_date]
        exact hr0d
    · refine ⟨newImportRecord d td, ?_, rfl⟩
      exact (List.mem_insertionSort recDesc).mpr
        (by rw [hFeq]
            exact List.mem_append.mpr (Or.inr (List.mem_map.mpr
              ⟨(d, td), List.mem_filter.mpr ⟨hdtd, decide_eq_true hdE⟩, rfl⟩)))

/-- A one-record store and a two-date observation set used as the concrete
instance for the field-local merge property. -/
def c5records : List DailyRecord := [⟨"2025-12-14", "2025-12-14T12:00:00", zeroInv, "n"⟩]

/-- Concrete observations: one cell for the existing date, one for a new one. -/
def c5dr : DateRecords :=
  [("2025-12-14", [(Variant.blackAri, [(Size.sM, 7)])]),
   ("2025-12-15", [(Variant.whiteAri, [(Size.sL, 3)])])]

/-- C5 witness: the new-date clause at the concrete observation set — every
record the merge produces for the fresh date `2025-12-15` holds 0 at the
untouched cell (white/mark-absent, size S). -/
theorem import_merge_field_local_witness :
    storeUnique c5records ∧
    (∀ r2 ∈ import_excel_data_records c5records c5dr, r2.date = "2025-12-15" →
      r2.inventory Variant.whiteNasi Size.sS =
        (tdLast [(Variant.whiteAri, [(Size.sL, 3)])] Variant.whiteNasi Size.sS).getD 0) :=
  ⟨by decide,
    (import_merge_field_local c5records c5dr (by decide) (by decide)).2.1
      "2025-12-15" [(Variant.whiteAri, [(Size.sL, 3)])] Variant.whiteNasi Size.sS
      (by decide) (by decide)⟩

/-! ### Claim C6 — at most one snapshot per date -/

/-- C6: starting from a store with distinct dates, any sequence of
commit-today and import operations keeps the Snapshot Store at one snapshot
per distinct date. -/
theorem store_unique_invariant (ops : List Op) (st : AppState)
    (h : storeUnique st.records) : storeUnique (applyOps st ops).records := by
  induction ops generalizing st with
  | nil => exact h
  | cons op t ih =>
    rw [show applyOps st (op :: t) = applyOps (applyOp st op) t from rfl]
    apply ih
    cases op with
    | commit today now => exact save_daily_unique st today now h
    | importFiles files =>
      show storeUnique (import_excel_data st files).records
      rw [show (import_excel_data st files).records =
          import_excel_data_records st.records (import_matrix_excel_fast files).1 from
        apply_import_records st _]
      exact import_records_unique st.records _ h (import_matrix_keys_nodup files)

/-- An empty starting state for the uniqueness witness. -/
def c6state : AppState := ⟨[], zeroInv, [], zeroInv⟩

/-- C6 witness: a concrete commit followed by a concrete import preserves
date uniqueness from the empty store. -/
theorem store_unique_invariant_witness :
    storeUnique c6state.records ∧
    storeUnique (applyOps c6state
      [Op.commit "2025-12-20" "2025-12-20T09:00:00",
       Op.importFiles [("在庫_黒_マークあり.xlsx", gridBothCols)]]).records :=
  ⟨by decide,
    store_unique_invariant
      [Op.commit "2025-12-20" "2025-12-20T09:00:00",
       Op.importFiles [("在庫_黒_マークあり.xlsx", gridBothCols)]]
      c6state (by decide)⟩

/-! ### Claim C10 — import also rewrites the current-inventory grid -/

theorem strLeB_refl : ∀ x : List Char, strLeB x x = true
  | [] => rfl
  | a :: as => by
    have h1 : ¬ a.toNat < a.toNat := Nat.lt_irrefl _
    simp only [strLeB, if_neg h1, if_pos rfl]
    exact strLeB_refl as

/-- C10: an import whose parse produces at least one observation does not
only touch the Snapshot Store: it also replaces the session's current
inventory grid, and the persisted copy of it, with the grid of the
maximal-date snapshot (the head of the descending-sorted store). -/
theorem import_side_effect (st : AppState) (files : List (String × Grid))
    (h : (import_matrix_excel_fast files).1 ≠ []) :
    ∃ hd, (import_excel_data st files).records.head? = some hd
      ∧ (∀ r2 ∈ (import_excel_data st files).records, dateLe r2.date hd.date = true)
      ∧ (import_excel_data st files).inventory = hd.inventory
      ∧ (import_excel_data st files).savedInventory = hd.inventory := by
  have hkeys := import_matrix_keys_nodup files
  have hemp : ¬ (import_matrix_excel_fast files).1.isEmpty = true := fun hh =>
    h (List.isEmpty_iff.mp hh)
  have hsorted : List.Sorted recDesc
      (import_excel_data_records st.records (import_matrix_excel_fast files).1) := by
    rw [import_records_eq_sort st.records _ h]
    exact List.sorted_insertionSort recDesc _
  have hrecs : import_excel_data_records st.records (import_matrix_excel_fast files).1 ≠ [] := by
    rw [import_records_eq_sort st.records _ h]
    intro hnil
    have hF : (import_matrix_excel_fast files).1.foldl
        (mergeStep (st.records.map (·.date))) st.records = [] := by
      have hperm := List.perm_insertionSort recDesc
        ((import_matrix_excel_fast files).1.foldl
          (mergeStep (st.records.map (·.date))) st.records)
      rw [show sortRecords ((import_matrix_excel_fast files).1.foldl
          (mergeStep (st.records.map (·.date))) st.records) =
        List.insertionSort recDesc ((import_matrix_excel_fast files).1.foldl
          (mergeStep (st.records.map (·.date))) st.records) from rfl] at hnil
      rw [hnil] at hperm
      exact (hperm.symm).eq_nil
    rw [merge_fold_eq _ _ _ hkeys] at hF
    rcases List.append_eq_nil.mp hF with ⟨hmapnil, hnewnil⟩
    have hrecnil : st.records = [] := List.map_eq_nil_iff.mp hmapnil
    have hfilnil := List.map_eq_nil_iff.mp hnewnil
    cases hdr : (import_matrix_excel_fast files).1 with
    | nil => exact h hdr
    | cons e t =>
      have : e ∈ (import_matrix_excel_fast files).1.filter
          (fun x => decide (x.1 ∉ st.records.map (·.date))) := by
        refine List.mem_filter.mpr ⟨by rw [hdr]; exact List.mem_cons_self _ _, ?_⟩
        rw [hrecnil]
        simp
      rw [hfilnil] at this
      cases this
  cases hrec : import_excel_data_records st.records (import_matrix_excel_fast files).1 with
  | nil => exact absurd hrec hrecs
  | cons hd tl =>
    have himp : import_excel_data st files =
        { records := hd :: tl
          inventory := hd.inventory
          savedRecords := sortRecords (hd :: tl)
          savedInventory := hd.inventory } := by
      show apply_import st (import_matrix_excel_fast files).1 = _
      unfold apply_import
      rw [if_neg hemp, hrec]
      rfl
    refine ⟨hd, by rw [himp]; rfl, ?_, by rw [himp], by rw [himp]⟩
    intro r2 hr2
    rw [himp] at hr2
    rw [hrec] at hsorted
    rcases List.mem_cons.mp hr2 with rfl | hr2
    · exact strLeB_refl _
    · exact (List.pairwise_cons.mp hsorted).1 r2 hr2

/-- C10 witness: a concrete import with one observation row replaces the
current and persisted inventory with the newest snapshot's grid. -/
theorem import_side_effect_witness :
    (import_matrix_excel_fast [("在庫_黒_マークあり.xlsx", gridBothCols)]).1 ≠ [] ∧
    ∃ hd, (import_excel_data c6state
        [("在庫_黒_マークあり.xlsx", gridBothCols)]).records.head? = some hd
      ∧ (∀ r2 ∈ (import_excel_data c6state
          [("在庫_黒_マークあり.xlsx", gridBothCols)]).records,
          dateLe r2.date hd.date = true)
      ∧ (import_excel_data c6state
          [("在庫_黒_マークあり.xlsx", gridBothCols)]).inventory = hd.inventory
      ∧ (import_excel_data c6state
          [("在庫_黒_マークあり.xlsx", gridBothCols)]).savedInventory = hd.inventory :=
  ⟨by decide, import_side_effect c6state [("在庫_黒_マークあり.xlsx", gridBothCols)]
    (by decide)⟩

end TshirtStock
